import Mathlib

/-!
Shallow embedding of the loss module of the A-CLIP repository
(file `losses.py`): the SimCLR-style contrastive pairwise loss engine
(`SIMCLRLoss`), the combined multi-objective loss engine (`ACLIPLoss`),
and the standalone negative-cosine-similarity helper (`cal_simsiam_loss`).

Tensors are modelled as real-valued matrices `Fin n → Fin d → ℝ` in exact
arithmetic.  The distributed collective `utils.all_gather_batch_with_grad`
is an external collaborator of the module under review; each gather call
site is abstracted as a function parameter from a local `(N, D)` batch to
the gathered `(W * N, D)` batch, and `utils.get_rank` and
`utils.get_world_size` are abstracted as natural-number parameters
`rank` and `W`.  The per-instance caches (`self.labels`, `self.masks`,
`self.last_local_batch_size`) are modelled as explicit state records
threaded through `forward`.
-/

open Finset

/-- A 2-D tensor with `n` rows and `d` columns. -/
abbrev Mat (n d : ℕ) : Type := Fin n → Fin d → ℝ

/-- Euclidean (L2) norm of one embedding row. -/
noncomputable def rowNorm {d : ℕ} (v : Fin d → ℝ) : ℝ :=
  Real.sqrt (∑ j, v j ^ 2)

/-- Row-wise L2 normalization, `F.normalize(x, dim=-1, p=2)` in exact
arithmetic: each row is divided by its L2 norm. -/
noncomputable def l2normalize {n d : ℕ} (A : Mat n d) : Mat n d :=
  fun i j => A i j / rowNorm (A i)

/-- Dot product of two rows. -/
noncomputable def dotp {d : ℕ} (u v : Fin d → ℝ) : ℝ := ∑ j, u j * v j

/-- `F.cosine_similarity(u, v, dim=-1)` in exact arithmetic. -/
noncomputable def cosine_similarity {d : ℕ} (u v : Fin d → ℝ) : ℝ :=
  dotp u v / (rowNorm u * rowNorm v)

/-- Per-row cross-entropy of a logits row against an integer class index
`t` (log-sum-exp minus the logit of the target class).  An out-of-range
target, which would raise in the original code, yields the junk logit 0;
all theorems below only ever use in-range targets. -/
noncomputable def ceRow {m : ℕ} (l : Fin m → ℝ) (t : ℕ) : ℝ :=
  Real.log (∑ j, Real.exp (l j)) - (if h : t < m then l ⟨t, h⟩ else 0)

/-- `F.cross_entropy(logits, target)` with the default mean reduction:
the mean over rows of the per-row cross-entropy. -/
noncomputable def crossEntropy {n m : ℕ} (L : Fin n → Fin m → ℝ) (t : Fin n → ℕ) : ℝ :=
  (∑ i, ceRow (L i) (t i)) / (n : ℝ)

/-- `torch.argmax` over one row: the least column index attaining the
maximum (0 on an empty row). -/
noncomputable def argmaxIdx {m : ℕ} (l : Fin m → ℝ) : ℕ :=
  sInf { t : ℕ | ∃ h : t < m, ∀ j, l j ≤ l ⟨t, h⟩ }

/-- The label tensor `local_batch_size * rank + torch.arange(local_batch_size)`. -/
def labelsTensor (local_batch_size rank : ℕ) : List ℕ :=
  (List.range local_batch_size).map (fun i => local_batch_size * rank + i)

/-- The self-similarity mask tensor
`F.one_hot(labels, total_batch_size) * 1e9` where
`total_batch_size = local_batch_size * world_size`. -/
noncomputable def masksTensor (local_batch_size rank W : ℕ) : List (List ℝ) :=
  (labelsTensor local_batch_size rank).map (fun lab =>
    (List.range (W * local_batch_size)).map (fun j => if j = lab then (1e9 : ℝ) else 0))

/-- The mutable per-instance state of `SIMCLRLoss`:
`self.labels`, `self.masks`, `self.last_local_batch_size`. -/
structure SIMCLRState where
  labels : List ℕ
  masks : List (List ℝ)
  last_local_batch_size : Option ℕ

/-- The state of a freshly constructed `SIMCLRLoss` instance. -/
def SIMCLRState.init : SIMCLRState :=
  { labels := [], masks := [], last_local_batch_size := none }

/-- The cache update of `SIMCLRLoss.forward`: recompute `labels` and
`masks` when `local_batch_size != self.last_local_batch_size`, otherwise
leave the state untouched. -/
noncomputable def SIMCLRLoss.cacheStep (rank W : ℕ) (s : SIMCLRState)
    (local_batch_size : ℕ) : SIMCLRState :=
  if some local_batch_size = s.last_local_batch_size then s
  else { labels := labelsTensor local_batch_size rank,
         masks := masksTensor local_batch_size rank W,
         last_local_batch_size := some local_batch_size }

/-- The output record of `SIMCLRLoss.forward`. -/
structure SIMCLROut where
  loss : ℝ
  ssl_loss : ℝ
  ssl_acc : ℝ

/-- `SIMCLRLoss.forward`, translated statement by statement from the
source.  `gatherA` and `gatherB` are the two components of the external
`utils.all_gather_batch_with_grad([q_a, q_b])` call; `tau` is the
constructor temperature.  Returns the output record together with the
updated instance state. -/
noncomputable def SIMCLRLoss.forward {N D : ℕ} (tau : ℝ) (rank W : ℕ)
    (gatherA gatherB : Mat N D → Mat (W * N) D)
    (s : SIMCLRState) (aug1_embed aug2_embed : Mat N D) :
    SIMCLROut × SIMCLRState :=
  let q_a := l2normalize aug1_embed
  let q_b := l2normalize aug2_embed
  let k_a := gatherA q_a
  let k_b := gatherB q_b
  let s' := SIMCLRLoss.cacheStep rank W s N
  let logits_aa := fun (i : Fin N) (j : Fin (W * N)) =>
    dotp (q_a i) (k_a j) / tau - (s'.masks.getD i.val []).getD j.val 0
  let logits_bb := fun (i : Fin N) (j : Fin (W * N)) =>
    dotp (q_b i) (k_b j) / tau - (s'.masks.getD i.val []).getD j.val 0
  let logits_ab := fun (i : Fin N) (j : Fin (W * N)) => dotp (q_a i) (k_b j) / tau
  let logits_ba := fun (i : Fin N) (j : Fin (W * N)) => dotp (q_b i) (k_a j) / tau
  let loss_a := crossEntropy (fun i => Fin.append (logits_ab i) (logits_aa i))
    (fun i => s'.labels.getD i.val 0)
  let loss_b := crossEntropy (fun i => Fin.append (logits_ba i) (logits_bb i))
    (fun i => s'.labels.getD i.val 0)
  let loss := (loss_a + loss_b) / 2
  let acc := 100 * (∑ i : Fin N,
    if argmaxIdx (Fin.append (logits_ab i) (logits_aa i)) = s'.labels.getD i.val 0
    then (1 : ℝ) else 0) / (N : ℝ)
  ({ loss := loss, ssl_loss := loss, ssl_acc := acc }, s')

/-- The mutable per-instance state of `ACLIPLoss`:
`self.labels`, `self.last_local_batch_size`. -/
structure ACLIPState where
  labels : List ℕ
  last_local_batch_size : Option ℕ

/-- The state of a freshly constructed `ACLIPLoss` instance. -/
def ACLIPState.init : ACLIPState :=
  { labels := [], last_local_batch_size := none }

/-- The cache update of `ACLIPLoss.forward`: recompute `labels` when
`local_batch_size != self.last_local_batch_size`, otherwise leave the
state untouched. -/
def ACLIPLoss.cacheStep (rank : ℕ) (s : ACLIPState)
    (local_batch_size : ℕ) : ACLIPState :=
  if some local_batch_size = s.last_local_batch_size then s
  else { labels := labelsTensor local_batch_size rank,
         last_local_batch_size := some local_batch_size }

/-- The output record of `ACLIPLoss.forward`. -/
structure ACLIPOut where
  loss : ℝ
  simclr_loss : ℝ
  im_byol_loss : ℝ
  contra_loss_1 : ℝ
  contra_loss_2 : ℝ
  clip_acc : ℝ

/-- `ACLIPLoss.forward`, translated statement by statement from the
source.  The five gather parameters are the external
`utils.all_gather_batch_with_grad` call sites (the two inner SimCLR ones
and the `image_embed_1`, `image_embed_2`, `text_embed` ones);
`logit_scale` is the input scalar of the same name; `ss` is the state of
the internally owned `SIMCLRLoss` instance and `sc` the engine's own
state; both updated states are returned alongside the output record. -/
noncomputable def ACLIPLoss.forward {N Dc Ds Db : ℕ} (tau logit_scale : ℝ)
    (rank W : ℕ)
    (gatherSSL1 gatherSSL2 : Mat N Ds → Mat (W * N) Ds)
    (gatherImg1 gatherImg2 : Mat N Dc → Mat (W * N) Dc)
    (gatherTxt : Mat N Dc → Mat (W * N) Dc)
    (ss : SIMCLRState) (sc : ACLIPState)
    (image_embed : Mat (N + N) Dc) (text_embed : Mat N Dc)
    (image_ssl_embed : Mat (N + N) Ds)
    (byol_feats : Mat (N + N) Db) (byol_feats_e : Mat N Db) :
    ACLIPOut × SIMCLRState × ACLIPState :=
  let aug1_embed := fun (i : Fin N) => image_ssl_embed (Fin.castAdd N i)
  let aug2_embed := fun (i : Fin N) => image_ssl_embed (Fin.natAdd N i)
  let simclr_res := SIMCLRLoss.forward tau rank W gatherSSL1 gatherSSL2 ss
    aug1_embed aug2_embed
  let im_features_e := Fin.append byol_feats_e byol_feats_e
  let im_byol_loss := (∑ i : Fin (N + N),
    (2 - 2 * dotp (l2normalize byol_feats i) (l2normalize im_features_e i))) / (N + N : ℝ)
  let sc' := ACLIPLoss.cacheStep rank sc N
  let ie := l2normalize image_embed
  let te := l2normalize text_embed
  let image_embed_1 := fun (i : Fin N) => ie (Fin.castAdd N i)
  let image_embed_2 := fun (i : Fin N) => ie (Fin.natAdd N i)
  let image_embed_all_1 := gatherImg1 image_embed_1
  let image_embed_all_2 := gatherImg2 image_embed_2
  let text_embed_all := gatherTxt te
  let logits_per_image_1 := fun (i : Fin N) (j : Fin (W * N)) =>
    logit_scale * dotp (image_embed_1 i) (text_embed_all j)
  let logits_per_text_1 := fun (i : Fin N) (j : Fin (W * N)) =>
    logit_scale * dotp (te i) (image_embed_all_1 j)
  let contra_loss_1 := (crossEntropy logits_per_image_1 (fun i => sc'.labels.getD i.val 0)
    + crossEntropy logits_per_text_1 (fun i => sc'.labels.getD i.val 0)) / 2
  let logits_per_image_2 := fun (i : Fin N) (j : Fin (W * N)) =>
    logit_scale * dotp (image_embed_2 i) (text_embed_all j)
  let logits_per_text_2 := fun (i : Fin N) (j : Fin (W * N)) =>
    logit_scale * dotp (te i) (image_embed_all_2 j)
  let contra_loss_2 := (crossEntropy logits_per_image_2 (fun i => sc'.labels.getD i.val 0)
    + crossEntropy logits_per_text_2 (fun i => sc'.labels.getD i.val 0)) / 2
  let loss := 0.5 * contra_loss_1 + 0.5 * contra_loss_2
    + simclr_res.1.ssl_loss + 2 * im_byol_loss
  let acc := 100 * (∑ i : Fin N,
    if argmaxIdx (logits_per_image_2 i) = sc'.labels.getD i.val 0
    then (1 : ℝ) else 0) / (N : ℝ)
  ({ loss := loss, simclr_loss := simclr_res.1.ssl_loss, im_byol_loss := im_byol_loss,
     contra_loss_1 := contra_loss_1, contra_loss_2 := contra_loss_2, clip_acc := acc },
   simclr_res.2, sc')

/-- `cal_simsiam_loss`, the standalone negative-cosine-similarity helper.
`Except.error ()` models the `raise Exception` branch for an unsupported
`version` string; `z.detach()` (stop gradient) has no effect on the
computed value. -/
noncomputable def cal_simsiam_loss {n d : ℕ} (p z : Mat n d) (version : String) :
    Except Unit ℝ :=
  if version = "original" then
    Except.ok (-((∑ i, dotp (l2normalize p i) (l2normalize z i)) / (n : ℝ)))
  else if version = "simplified" then
    Except.ok (-((∑ i, cosine_similarity (p i) (z i)) / (n : ℝ)))
  else
    Except.error ()

/-- C1: for every input record with same-shape batches `aug1_embed` and
`aug2_embed` of `N` rows, `SIMCLRLoss.forward` returns
`loss = (Loss A + Loss B) / 2`, where Loss A is the cross-entropy of
`concat(ab, aa)` along columns against the cached label vector, Loss B is
the cross-entropy of `concat(ba, bb)` against the same labels, the four
similarity matrices are the products of the L2-normalized local batches
with the gathered global batches scaled by `1 / tau`, and the `1e9`
self-similarity mask is subtracted from `aa` and `bb` only (not from `ab`
or `ba`).  Stated for arbitrary batches; the claim's restriction to
non-zero rows is the special case in which the normalization is
division by a non-zero norm. -/
theorem simclr_loss_formula {N D : ℕ} (tau : ℝ) (rank W : ℕ)
    (gA gB : Mat N D → Mat (W * N) D) (s : SIMCLRState) (a b : Mat N D) :
    (SIMCLRLoss.forward tau rank W gA gB s a b).1.loss =
      (crossEntropy
          (fun i => Fin.append
            (fun j => dotp (l2normalize a i) (gB (l2normalize b) j) / tau)
            (fun j => dotp (l2normalize a i) (gA (l2normalize a) j) / tau
              - ((SIMCLRLoss.cacheStep rank W s N).masks.getD i.val []).getD j.val 0))
          (fun i => (SIMCLRLoss.cacheStep rank W s N).labels.getD i.val 0)
        + crossEntropy
          (fun i => Fin.append
            (fun j => dotp (l2normalize b i) (gA (l2normalize a) j) / tau)
            (fun j => dotp (l2normalize b i) (gB (l2normalize b) j) / tau
              - ((SIMCLRLoss.cacheStep rank W s N).masks.getD i.val []).getD j.val 0))
          (fun i => (SIMCLRLoss.cacheStep rank W s N).labels.getD i.val 0)) / 2 := rfl

/-- C2: `ACLIPLoss.forward` returns under the key `loss` exactly
`0.5 * contra_loss_1 + 0.5 * contra_loss_2 + simclr_loss +
2 * im_byol_loss`, where the sub-terms are the values it returns under
the corresponding keys, with these fixed weights. -/
theorem aclip_loss_combination {N Dc Ds Db : ℕ} (tau logit_scale : ℝ)
    (rank W : ℕ)
    (g1 g2 : Mat N Ds → Mat (W * N) Ds) (f1 f2 : Mat N Dc → Mat (W * N) Dc)
    (gt : Mat N Dc → Mat (W * N) Dc) (ss : SIMCLRState) (sc : ACLIPState)
    (ie : Mat (N + N) Dc) (te : Mat N Dc) (se : Mat (N + N) Ds)
    (bf : Mat (N + N) Db) (be : Mat N Db) :
    (ACLIPLoss.forward tau logit_scale rank W g1 g2 f1 f2 gt ss sc ie te se bf be).1.loss
      = 0.5 * (ACLIPLoss.forward tau logit_scale rank W g1 g2 f1 f2 gt ss sc ie te se bf be).1.contra_loss_1
      + 0.5 * (ACLIPLoss.forward tau logit_scale rank W g1 g2 f1 f2 gt ss sc ie te se bf be).1.contra_loss_2
      + (ACLIPLoss.forward tau logit_scale rank W g1 g2 f1 f2 gt ss sc ie te se bf be).1.simclr_loss
      + 2 * (ACLIPLoss.forward tau logit_scale rank W g1 g2 f1 f2 gt ss sc ie te se bf be).1.im_byol_loss := rfl

/-- C7: the `im_byol_loss` returned by `ACLIPLoss.forward` equals the
mean over all `2N` rows of `2 - 2 * (x . y)`, where `x` is the
L2-normalized row of `byol_feats` and `y` is the L2-normalized
corresponding row of `byol_feats_e` duplicated (concatenated with
itself) to `2N` rows. -/
theorem aclip_byol_formula {N Dc Ds Db : ℕ} (tau logit_scale : ℝ)
    (rank W : ℕ)
    (g1 g2 : Mat N Ds → Mat (W * N) Ds) (f1 f2 : Mat N Dc → Mat (W * N) Dc)
    (gt : Mat N Dc → Mat (W * N) Dc) (ss : SIMCLRState) (sc : ACLIPState)
    (ie : Mat (N + N) Dc) (te : Mat N Dc) (se : Mat (N + N) Ds)
    (bf : Mat (N + N) Db) (be : Mat N Db) :
    (ACLIPLoss.forward tau logit_scale rank W g1 g2 f1 f2 gt ss sc ie te se bf be).1.im_byol_loss
      = (∑ i : Fin (N + N),
          (2 - 2 * dotp (l2normalize bf i) (l2normalize (Fin.append be be) i)))
        / (N + N : ℝ) := rfl

/-- C8: the `clip_acc` returned by `ACLIPLoss.forward` equals `100`
times the fraction of the `N` local samples for which the least argmax
over the view-2 image-to-text logits
(`logit_scale * image_embed_2 @ text_embed_all.t()`, the
`logits_per_image` most recently computed during the `contra_loss_2`
step) equals the sample's cached label; in particular it is not computed
from view-1's logits. -/
theorem aclip_clip_acc_formula {N Dc Ds Db : ℕ} (tau logit_scale : ℝ)
    (rank W : ℕ)
    (g1 g2 : Mat N Ds → Mat (W * N) Ds) (f1 f2 : Mat N Dc → Mat (W * N) Dc)
    (gt : Mat N Dc → Mat (W * N) Dc) (ss : SIMCLRState) (sc : ACLIPState)
    (ie : Mat (N + N) Dc) (te : Mat N Dc) (se : Mat (N + N) Ds)
    (bf : Mat (N + N) Db) (be : Mat N Db) :
    (ACLIPLoss.forward tau logit_scale rank W g1 g2 f1 f2 gt ss sc ie te se bf be).1.clip_acc
      = 100 * (∑ i : Fin N,
          if argmaxIdx (fun j : Fin (W * N) =>
              logit_scale * dotp (l2normalize ie (Fin.natAdd N i)) (gt (l2normalize te) j))
            = (ACLIPLoss.cacheStep rank sc N).labels.getD i.val 0
          then (1 : ℝ) else 0) / (N : ℝ) := rfl

/-- Well-formedness of a `SIMCLRLoss` cache: whenever a last batch size
is recorded, the cached labels and masks are the ones computed for it. -/
def SIMCLRState.WF (rank W : ℕ) (s : SIMCLRState) : Prop :=
  ∀ M, s.last_local_batch_size = some M →
    s.labels = labelsTensor M rank ∧ s.masks = masksTensor M rank W

/-- Well-formedness of an `ACLIPLoss` cache. -/
def ACLIPState.WF (rank : ℕ) (s : ACLIPState) : Prop :=
  ∀ M, s.last_local_batch_size = some M → s.labels = labelsTensor M rank

lemma simclrState_init_wf (rank W : ℕ) : SIMCLRState.WF rank W SIMCLRState.init := by
  intro M h
  simp [SIMCLRState.init] at h

lemma aclipState_init_wf (rank : ℕ) : ACLIPState.WF rank ACLIPState.init := by
  intro M h
  simp [ACLIPState.init] at h

lemma simclr_cacheStep_wf (rank W N : ℕ) (s : SIMCLRState)
    (hs : SIMCLRState.WF rank W s) :
    SIMCLRState.WF rank W (SIMCLRLoss.cacheStep rank W s N) := by
  unfold SIMCLRLoss.cacheStep
  by_cases h : some N = s.last_local_batch_size
  · rw [if_pos h]; exact hs
  · rw [if_neg h]
    intro M hM
    obtain rfl : N = M := by simpa using hM
    exact ⟨rfl, rfl⟩

lemma aclip_cacheStep_wf (rank N : ℕ) (s : ACLIPState)
    (hs : ACLIPState.WF rank s) :
    ACLIPState.WF rank (ACLIPLoss.cacheStep rank s N) := by
  unfold ACLIPLoss.cacheStep
  by_cases h : some N = s.last_local_batch_size
  · rw [if_pos h]; exact hs
  · rw [if_neg h]
    intro M hM
    obtain rfl : N = M := by simpa using hM
    rfl

lemma simclr_cacheStep_labels (rank W N : ℕ) (s : SIMCLRState)
    (hs : SIMCLRState.WF rank W s) :
    (SIMCLRLoss.cacheStep rank W s N).labels = labelsTensor N rank := by
  unfold SIMCLRLoss.cacheStep
  by_cases h : some N = s.last_local_batch_size
  · rw [if_pos h]; exact (hs N h.symm).1
  · rw [if_neg h]

lemma aclip_cacheStep_labels (rank N : ℕ) (s : ACLIPState)
    (hs : ACLIPState.WF rank s) :
    (ACLIPLoss.cacheStep rank s N).labels = labelsTensor N rank := by
  unfold ACLIPLoss.cacheStep
  by_cases h : some N = s.last_local_batch_size
  · rw [if_pos h]; exact hs N h.symm
  · rw [if_neg h]

/-- C3: for every forward call with local batch size `N` on a
well-formed (reachable) cache state, the cached label vector used by
both engines has length `N` and values
`local_batch_size * rank + [0..local_batch_size)`; in particular, for
`rank = 0` the label vector equals `[0, 1, ..., N-1]`. -/
theorem labels_length_and_values (rank W N : ℕ) (s : SIMCLRState) (t : ACLIPState)
    (hs : SIMCLRState.WF rank W s) (ht : ACLIPState.WF rank t) :
    ((SIMCLRLoss.cacheStep rank W s N).labels
        = (List.range N).map (fun i => N * rank + i)
      ∧ (ACLIPLoss.cacheStep rank t N).labels
        = (List.range N).map (fun i => N * rank + i))
    ∧ ((SIMCLRLoss.cacheStep rank W s N).labels.length = N
      ∧ (ACLIPLoss.cacheStep rank t N).labels.length = N)
    ∧ (rank = 0 →
        (SIMCLRLoss.cacheStep rank W s N).labels = List.range N
        ∧ (ACLIPLoss.cacheStep rank t N).labels = List.range N) := by
  have h1 := simclr_cacheStep_labels rank W N s hs
  have h2 := aclip_cacheStep_labels rank N t ht
  refine ⟨⟨h1, h2⟩, ⟨?_, ?_⟩, ?_⟩
  · rw [h1]; simp [labelsTensor]
  · rw [h2]; simp [labelsTensor]
  · rintro rfl
    rw [h1, h2]
    constructor <;> simp [labelsTensor]

/-- Witness for C3 at `rank = 0`, `W = 1`, `N = 3`, starting from the
freshly constructed engine states. -/
theorem labels_length_and_values_w :
    (((SIMCLRLoss.cacheStep 0 1 SIMCLRState.init 3).labels
        = (List.range 3).map (fun i => 3 * 0 + i)
      ∧ (ACLIPLoss.cacheStep 0 ACLIPState.init 3).labels
        = (List.range 3).map (fun i => 3 * 0 + i))
    ∧ ((SIMCLRLoss.cacheStep 0 1 SIMCLRState.init 3).labels.length = 3
      ∧ (ACLIPLoss.cacheStep 0 ACLIPState.init 3).labels.length = 3)
    ∧ (0 = 0 →
        (SIMCLRLoss.cacheStep 0 1 SIMCLRState.init 3).labels = List.range 3
        ∧ (ACLIPLoss.cacheStep 0 ACLIPState.init 3).labels = List.range 3)) :=
  labels_length_and_values 0 1 3 SIMCLRState.init ACLIPState.init
    (simclrState_init_wf 0 1) (aclipState_init_wf 0)

/-- C4: for both engines, the cached labels (and, for `SIMCLRLoss`, the
self-similarity mask) are recomputed on a call exactly when the call's
local batch size differs from the recorded previous one, and are
otherwise reused verbatim (the state is returned unchanged); and after
two calls with batch size 4 followed by a call with batch size 8, the
third call uses a label vector of length 8, not the stale size-4
cache. -/
theorem cache_invalidation (rank W N : ℕ) (s : SIMCLRState) (t : ACLIPState) :
    (s.last_local_batch_size = some N → SIMCLRLoss.cacheStep rank W s N = s)
    ∧ (s.last_local_batch_size ≠ some N →
        SIMCLRLoss.cacheStep rank W s N =
          { labels := labelsTensor N rank, masks := masksTensor N rank W,
            last_local_batch_size := some N })
    ∧ (t.last_local_batch_size = some N → ACLIPLoss.cacheStep rank t N = t)
    ∧ (t.last_local_batch_size ≠ some N →
        ACLIPLoss.cacheStep rank t N =
          { labels := labelsTensor N rank, last_local_batch_size := some N })
    ∧ (SIMCLRLoss.cacheStep rank W (SIMCLRLoss.cacheStep rank W
        (SIMCLRLoss.cacheStep rank W SIMCLRState.init 4) 4) 8).labels.length = 8 := by
  refine ⟨?_, ?_, ?_, ?_, ?_⟩
  · intro h; unfold SIMCLRLoss.cacheStep; rw [if_pos h.symm]
  · intro h; unfold SIMCLRLoss.cacheStep; rw [if_neg (fun hh => h hh.symm)]
  · intro h; unfold ACLIPLoss.cacheStep; rw [if_pos h.symm]
  · intro h; unfold ACLIPLoss.cacheStep; rw [if_neg (fun hh => h hh.symm)]
  · simp [SIMCLRLoss.cacheStep, SIMCLRState.init, labelsTensor]

/-- Witness for C4: with a recorded batch size 4, a repeated call with
batch size 4 leaves the `SIMCLRLoss` cache unchanged. -/
theorem cache_invalidation_w :
    SIMCLRLoss.cacheStep 0 1
      { labels := labelsTensor 4 0, masks := masksTensor 4 0 1,
        last_local_batch_size := some 4 } 4
    = { labels := labelsTensor 4 0, masks := masksTensor 4 0 1,
        last_local_batch_size := some 4 } :=
  (cache_invalidation 0 1 4
    { labels := labelsTensor 4 0, masks := masksTensor 4 0 1,
      last_local_batch_size := some 4 }
    ACLIPState.init).1 rfl

lemma dotp_l2normalize {n d : ℕ} (p z : Mat n d) (i : Fin n) :
    dotp (l2normalize p i) (l2normalize z i) = cosine_similarity (p i) (z i) := by
  unfold dotp cosine_similarity l2normalize dotp
  simp only [div_mul_div_comm]
  rw [← Finset.sum_div]

lemma rowNorm_pos {d : ℕ} (u : Fin d → ℝ) (hu : u ≠ 0) : 0 < rowNorm u := by
  unfold rowNorm
  apply Real.sqrt_pos.mpr
  obtain ⟨j, hj⟩ := Function.ne_iff.mp hu
  exact Finset.sum_pos' (fun k _ => sq_nonneg (u k))
    ⟨j, Finset.mem_univ j, sq_pos_of_ne_zero hj⟩

lemma sum_sq_pos {d : ℕ} (u : Fin d → ℝ) (hu : u ≠ 0) : 0 < ∑ j, u j ^ 2 := by
  obtain ⟨j, hj⟩ := Function.ne_iff.mp hu
  exact Finset.sum_pos' (fun k _ => sq_nonneg (u k))
    ⟨j, Finset.mem_univ j, sq_pos_of_ne_zero hj⟩

lemma rowNorm_l2normalize {n d : ℕ} (p : Mat n d) (i : Fin n) (h : p i ≠ 0) :
    rowNorm (l2normalize p i) = 1 := by
  have hS : 0 < ∑ j, p i j ^ 2 := sum_sq_pos (p i) h
  show Real.sqrt (∑ j, (p i j / rowNorm (p i)) ^ 2) = 1
  have hr : rowNorm (p i) ^ 2 = ∑ j, p i j ^ 2 := by
    unfold rowNorm
    exact Real.sq_sqrt hS.le
  simp only [div_pow]
  rw [← Finset.sum_div, hr, div_self hS.ne', Real.sqrt_one]

lemma cosine_similarity_l2normalize {n d : ℕ} (p z : Mat n d) (i : Fin n)
    (hp : p i ≠ 0) (hz : z i ≠ 0) :
    cosine_similarity (l2normalize p i) (l2normalize z i)
      = cosine_similarity (p i) (z i) := by
  calc cosine_similarity (l2normalize p i) (l2normalize z i)
      = dotp (l2normalize p i) (l2normalize z i)
        / (rowNorm (l2normalize p i) * rowNorm (l2normalize z i)) := rfl
    _ = dotp (l2normalize p i) (l2normalize z i) / (1 * 1) := by
        rw [rowNorm_l2normalize p i hp, rowNorm_l2normalize z i hz]
    _ = dotp (l2normalize p i) (l2normalize z i) := by norm_num
    _ = cosine_similarity (p i) (z i) := dotp_l2normalize p z i

/-- C5: for batches whose rows are all non-zero, `cal_simsiam_loss` with
mode `"original"` returns (in exact arithmetic) the same value as with
mode `"simplified"`, and both equal the negated mean over rows of the
cosine similarity between the normalized prediction row and the
normalized target row. -/
theorem cal_simsiam_modes_agree {n d : ℕ} (p z : Mat n d)
    (hp : ∀ i, p i ≠ 0) (hz : ∀ i, z i ≠ 0) :
    cal_simsiam_loss p z "original" = cal_simsiam_loss p z "simplified"
    ∧ cal_simsiam_loss p z "original"
        = Except.ok (-((∑ i, cosine_similarity (l2normalize p i) (l2normalize z i))
            / (n : ℝ))) := by
  have ho : cal_simsiam_loss p z "original"
      = Except.ok (-((∑ i, dotp (l2normalize p i) (l2normalize z i)) / (n : ℝ))) := by
    unfold cal_simsiam_loss
    rw [if_pos (show ("original" : String) = "original" from rfl)]
  have hs : cal_simsiam_loss p z "simplified"
      = Except.ok (-((∑ i, cosine_similarity (p i) (z i)) / (n : ℝ))) := by
    unfold cal_simsiam_loss
    rw [if_neg (show ¬("simplified" : String) = "original" by decide),
      if_pos (show ("simplified" : String) = "simplified" from rfl)]
  constructor
  · rw [ho, hs, Finset.sum_congr rfl (fun i _ => dotp_l2normalize p z i)]
  · rw [ho, Finset.sum_congr rfl (fun (i : Fin n) _ => (dotp_l2normalize p z i).trans
      (cosine_similarity_l2normalize p z i (hp i) (hz i)).symm)]

/-- Witness for C5 at the all-ones 1 x 1 batches. -/
theorem cal_simsiam_modes_agree_w :
    cal_simsiam_loss ((fun _ _ => (1 : ℝ)) : Mat 1 1) (fun _ _ => (1 : ℝ)) "original"
      = cal_simsiam_loss ((fun _ _ => (1 : ℝ)) : Mat 1 1) (fun _ _ => (1 : ℝ)) "simplified"
    ∧ cal_simsiam_loss ((fun _ _ => (1 : ℝ)) : Mat 1 1) (fun _ _ => (1 : ℝ)) "original"
      = Except.ok (-((∑ i : Fin 1,
          cosine_similarity (l2normalize ((fun _ _ => (1 : ℝ)) : Mat 1 1) i)
            (l2normalize ((fun _ _ => (1 : ℝ)) : Mat 1 1) i)) / ((1 : ℕ) : ℝ))) :=
  cal_simsiam_modes_agree ((fun _ _ => (1 : ℝ)) : Mat 1 1) (fun _ _ => (1 : ℝ))
    (fun i h => by simpa using congrFun h 0)
    (fun i h => by simpa using congrFun h 0)

/-- C6: `cal_simsiam_loss` called with any mode string other than
`"original"` or `"simplified"` returns the error outcome and no value,
while both supported mode strings return a value and never error. -/
theorem cal_simsiam_invalid_mode {n d : ℕ} (p z : Mat n d) (version : String)
    (h1 : version ≠ "original") (h2 : version ≠ "simplified") :
    cal_simsiam_loss p z version = Except.error ()
    ∧ (∃ r, cal_simsiam_loss p z "original" = Except.ok r)
    ∧ (∃ r, cal_simsiam_loss p z "simplified" = Except.ok r) := by
  refine ⟨?_,
    ⟨-((∑ i, dotp (l2normalize p i) (l2normalize z i)) / (n : ℝ)), ?_⟩,
    ⟨-((∑ i, cosine_similarity (p i) (z i)) / (n : ℝ)), ?_⟩⟩
  · unfold cal_simsiam_loss
    rw [if_neg h1, if_neg h2]
  · unfold cal_simsiam_loss
    rw [if_pos (show ("original" : String) = "original" from rfl)]
  · unfold cal_simsiam_loss
    rw [if_neg (show ¬("simplified" : String) = "original" by decide),
      if_pos (show ("simplified" : String) = "simplified" from rfl)]

/-- Witness for C6 at mode `"bogus"` on 1 x 1 batches. -/
theorem cal_simsiam_invalid_mode_w :
    cal_simsiam_loss ((fun _ _ => (1 : ℝ)) : Mat 1 1) (fun _ _ => (1 : ℝ)) "bogus"
      = Except.error ()
    ∧ (∃ r, cal_simsiam_loss ((fun _ _ => (1 : ℝ)) : Mat 1 1)
        (fun _ _ => (1 : ℝ)) "original" = Except.ok r)
    ∧ (∃ r, cal_simsiam_loss ((fun _ _ => (1 : ℝ)) : Mat 1 1)
        (fun _ _ => (1 : ℝ)) "simplified" = Except.ok r) :=
  cal_simsiam_invalid_mode ((fun _ _ => (1 : ℝ)) : Mat 1 1) (fun _ _ => (1 : ℝ))
    "bogus" (by decide) (by decide)

lemma l2normalize_append_castAdd {a b d : ℕ} (X : Mat a d) (Y : Mat b d) (i : Fin a) :
    l2normalize (Fin.append X Y) (Fin.castAdd b i) = l2normalize X i := by
  funext j
  unfold l2normalize
  rw [Fin.append_left]

lemma l2normalize_append_natAdd {a b d : ℕ} (X : Mat a d) (Y : Mat b d) (i : Fin b) :
    l2normalize (Fin.append X Y) (Fin.natAdd a i) = l2normalize Y i := by
  funext j
  unfold l2normalize
  rw [Fin.append_right]

lemma simclr_forward_swap_loss {N D : ℕ} (tau : ℝ) (rank W : ℕ)
    (gA gB : Mat N D → Mat (W * N) D) (s : SIMCLRState) (a b : Mat N D) :
    (SIMCLRLoss.forward tau rank W gB gA s b a).1.loss
      = (SIMCLRLoss.forward tau rank W gA gB s a b).1.loss := by
  simp only [SIMCLRLoss.forward]
  ring

lemma simclr_forward_swap_ssl {N D : ℕ} (tau : ℝ) (rank W : ℕ)
    (gA gB : Mat N D → Mat (W * N) D) (s : SIMCLRState) (a b : Mat N D) :
    (SIMCLRLoss.forward tau rank W gB gA s b a).1.ssl_loss
      = (SIMCLRLoss.forward tau rank W gA gB s a b).1.ssl_loss :=
  simclr_forward_swap_loss tau rank W gA gB s a b

/-- C9: swapping the `aug1_embed` and `aug2_embed` batches (together
with the corresponding components of the external gather) leaves the
`loss` returned by `SIMCLRLoss.forward` unchanged; and for
`ACLIPLoss.forward`, swapping the two image views of every stacked
input (which exchanges the roles of `contra_loss_1` and
`contra_loss_2`) leaves the returned total `loss` unchanged, given the
fixed `0.5`/`0.5` weighting. -/
theorem swap_symmetry {N D Dc Ds Db : ℕ} (tau logit_scale : ℝ) (rank W : ℕ)
    (gA gB : Mat N D → Mat (W * N) D) (st : SIMCLRState) (a b : Mat N D)
    (g1 g2 : Mat N Ds → Mat (W * N) Ds) (f1 f2 : Mat N Dc → Mat (W * N) Dc)
    (gt : Mat N Dc → Mat (W * N) Dc) (ss : SIMCLRState) (sc : ACLIPState)
    (i1 i2 : Mat N Dc) (te : Mat N Dc) (s1 s2 : Mat N Ds)
    (b1 b2 : Mat N Db) (be : Mat N Db) :
    (SIMCLRLoss.forward tau rank W gB gA st b a).1.loss
      = (SIMCLRLoss.forward tau rank W gA gB st a b).1.loss
    ∧ (ACLIPLoss.forward tau logit_scale rank W g2 g1 f2 f1 gt ss sc
        (Fin.append i2 i1) te (Fin.append s2 s1) (Fin.append b2 b1) be).1.loss
      = (ACLIPLoss.forward tau logit_scale rank W g1 g2 f1 f2 gt ss sc
        (Fin.append i1 i2) te (Fin.append s1 s2) (Fin.append b1 b2) be).1.loss := by
  constructor
  · exact simclr_forward_swap_loss tau rank W gA gB st a b
  · simp only [ACLIPLoss.forward, Fin.append_left, Fin.append_right,
      l2normalize_append_castAdd, l2normalize_append_natAdd, Fin.sum_univ_add]
    rw [simclr_forward_swap_ssl tau rank W g1 g2 ss s1 s2]
    ring

lemma l2normalize_row_scale {N D : ℕ} (c : Fin N → ℝ) (A : Mat N D)
    (hc : ∀ i, 0 < c i) :
    l2normalize (fun i j => c i * A i j) = l2normalize A := by
  funext i j
  unfold l2normalize
  have hnorm : rowNorm (fun j => c i * A i j) = c i * rowNorm (A i) := by
    unfold rowNorm
    simp only [mul_pow]
    rw [← Finset.mul_sum, Real.sqrt_mul (sq_nonneg (c i)), Real.sqrt_sq (hc i).le]
  rw [hnorm]
  exact mul_div_mul_left _ _ (hc i).ne'

/-- C10: scaling each row of each input batch of `SIMCLRLoss.forward`
by its own positive factor (in particular, scaling both whole batches
by one positive scalar) yields, in exact arithmetic, the same output
record (`loss`, `ssl_loss`, `ssl_acc`) and the same updated state as
the unscaled inputs, because both batches are L2-normalized before any
similarity is computed. -/
theorem simclr_scale_invariance {N D : ℕ} (tau : ℝ) (rank W : ℕ)
    (gA gB : Mat N D → Mat (W * N) D) (s : SIMCLRState) (a b : Mat N D)
    (c1 c2 : Fin N → ℝ) (hc1 : ∀ i, 0 < c1 i) (hc2 : ∀ i, 0 < c2 i)
    (_ha : ∀ i, a i ≠ 0) (_hb : ∀ i, b i ≠ 0) :
    SIMCLRLoss.forward tau rank W gA gB s
        (fun i j => c1 i * a i j) (fun i j => c2 i * b i j)
      = SIMCLRLoss.forward tau rank W gA gB s a b := by
  unfold SIMCLRLoss.forward
  rw [l2normalize_row_scale c1 a hc1, l2normalize_row_scale c2 b hc2]

/-- Witness for C10: 1 x 1 all-ones batches scaled rowwise by 2 and 3,
with `tau = 1`, `rank = 0`, `W = 1`, and the constant-zero gathers. -/
theorem simclr_scale_invariance_w :
    SIMCLRLoss.forward (1 : ℝ) 0 1 (fun _ _ _ => (0 : ℝ)) (fun _ _ _ => (0 : ℝ))
        SIMCLRState.init
        (fun i j => (fun _ : Fin 1 => (2 : ℝ)) i * ((fun _ _ => (1 : ℝ)) : Mat 1 1) i j)
        (fun i j => (fun _ : Fin 1 => (3 : ℝ)) i * ((fun _ _ => (1 : ℝ)) : Mat 1 1) i j)
      = SIMCLRLoss.forward (1 : ℝ) 0 1 (fun _ _ _ => (0 : ℝ)) (fun _ _ _ => (0 : ℝ))
        SIMCLRState.init ((fun _ _ => (1 : ℝ)) : Mat 1 1) (fun _ _ => (1 : ℝ)) :=
  simclr_scale_invariance 1 0 1 (fun _ _ _ => (0 : ℝ)) (fun _ _ _ => (0 : ℝ))
    SIMCLRState.init ((fun _ _ => (1 : ℝ)) : Mat 1 1) (fun _ _ => (1 : ℝ))
    (fun _ => (2 : ℝ)) (fun _ => (3 : ℝ))
    (fun _ => by norm_num) (fun _ => by norm_num)
    (fun i h => by simpa using congrFun h 0)
    (fun i h => by simpa using congrFun h 0)
